import Mathlib

/-!
Shallow embedding of `examples/rnn/Model.py` (AlgoTrader) over exact
rationals, together with proofs of the specification claims about it.

Modelling conventions:
* torch tensors of shape (batch × time) become `List (List ℚ)` (row major);
  1-D tensors become `List ℚ`.  Floating-point scalars are embedded as exact
  rationals, so thresholds such as `0.3` are the exact rational `3/10`.
* `ℚ` division is total with `x / 0 = 0`; where torch would produce
  `inf`/`NaN` (division by zero) the theorems exhibit the zero divisor
  explicitly rather than relying on the totalised value.
* Shape errors that torch raises (e.g. an incompatible broadcast in
  `var / malong`) are modelled with `Option`: the embedded function returns
  `none` exactly where torch raises.
-/

namespace Model

/-- Width of a (batch × time) tensor, i.e. `prices.shape[1]`: the length of
the first row (0 for an empty batch). -/
def tensorWidth (prices : List (List ℚ)) : Nat :=
  (prices.headD []).length

/-- Python slice `r[-k:]` for `k = 0` (whole list) and `0 < k`
(last `k` elements; the whole list when `k ≥ r.length`). -/
def lastSlice (k : Nat) (r : List ℚ) : List ℚ :=
  if k = 0 then r else r.drop (r.length - k)

/-- One row of `moving_average`: `conv1d` of the row with the kernel
`ones(window)/window`, output position `i` being the dot product of the
kernel with the `window` prices starting at `i`.  Output length is
`T + 1 - window` (torch raises when `window > T` or `window = 0`;
claims below always assume `1 ≤ window ≤ T`). -/
def maRow (window : Nat) (p : List ℚ) : List ℚ :=
  (List.range (p.length + 1 - window)).map (fun i =>
    (List.zipWith (fun a b => a * b)
      (List.replicate window ((1 : ℚ) / (window : ℚ))) (p.drop i)).sum)

/-- `moving_average(prices, window)` from the source, applied row by row
(the conv1d over batch dimension acts independently per row). -/
def moving_average (prices : List (List ℚ)) (window : Nat) : List (List ℚ) :=
  prices.map (maRow window)

/-- `percent_change(prices) = prices[:,1:] / prices[:,:-1] - 1`,
elementwise per row: position `t` holds `p[t+1]/p[t] - 1`. -/
def percent_change (prices : List (List ℚ)) : List (List ℚ) :=
  prices.map (fun p => List.zipWith (fun a b => b / a - 1) p (p.drop 1))

/-- `to_categorical(data)` from the source: start from `torch.zeros`,
overwrite with 1 wherever `data > -0.3`, then with 2 wherever `data > 0.3`,
finally cast to integers with `.long()` (floor is exact here: the values
are the exact rationals 0, 1, 2). -/
def to_categorical (data : List ℚ) : List Int :=
  let categories : List ℚ := List.replicate data.length 0
  let categories := List.zipWith (fun v c => if v > -0.3 then (1 : ℚ) else c) data categories
  let categories := List.zipWith (fun v c => if v > 0.3 then (2 : ℚ) else c) data categories
  categories.map (fun q => Rat.floor q)

/-- Auxiliary scan for `argmaxRow`: carries the current position, the best
index so far and the best value so far; a strictly greater value is needed
to displace the incumbent, so the first maximum wins. -/
def argmaxAux : List ℚ → Nat → Nat → ℚ → Nat
  | [], _, bi, _ => bi
  | v :: rest, i, bi, bv =>
    if v > bv then argmaxAux rest (i + 1) i v else argmaxAux rest (i + 1) bi bv

/-- `torch.argmax` along the class dimension for one row: index of the
first occurrence of the maximal value (torch documents first-occurrence
tie-breaking; torch raises on an empty row, which the claims never use). -/
def argmaxRow : List ℚ → Nat
  | [] => 0
  | v :: rest => argmaxAux rest 1 0 v

/-- `dist_cat = torch.argmax(dist, dim=1)` from `stats`, as int64 values. -/
def dist_cat (dist : List (List ℚ)) : List Int :=
  dist.map (fun r => ((argmaxRow r : Nat) : Int))

/-- `dist_pos = dist_cat == 2` from `stats`. -/
def dist_pos (dist : List (List ℚ)) : List Bool :=
  (dist_cat dist).map (fun c => decide (c = 2))

/-- `truth_pos = truth_cat == 2` from `stats`. -/
def truth_pos (truth : List ℚ) : List Bool :=
  (to_categorical truth).map (fun c => decide (c = 2))

/-- `correct = torch.sum(dist_pos & truth_pos)` from `stats`. -/
def correctCount (dist : List (List ℚ)) (truth : List ℚ) : Nat :=
  (List.zipWith and (dist_pos dist) (truth_pos truth)).count true

/-- Result record of `stats`; `recallQ` embeds the dict entry named
recall in the source (that word is reserved in this development). -/
structure Stats where
  accuracy : ℚ
  precision : ℚ
  recallQ : ℚ
deriving DecidableEq, Repr

/-- `stats(dist, truth)` from the source.  `torch.sum` of a boolean tensor
counts the `true` entries; the three quotients are embedded with total `ℚ`
division (torch produces `NaN`/`inf` on a zero denominator; the
division-by-zero claims exhibit the zero denominators explicitly). -/
def stats (dist : List (List ℚ)) (truth : List ℚ) : Stats :=
  { accuracy :=
      (((List.zipWith (fun a b => decide (a = b)) (dist_cat dist)
          (to_categorical truth)).count true : Nat) : ℚ)
        / (((to_categorical truth).length : Nat) : ℚ)
  , precision :=
      ((correctCount dist truth : Nat) : ℚ) / (((dist_pos dist).count true : Nat) : ℚ)
  , recallQ :=
      ((correctCount dist truth : Nat) : ℚ) / (((truth_pos truth).count true : Nat) : ℚ) }

/-- Elementwise `* 100` on a (batch × time) tensor, the trailing `* 100`
applied to each stored indicator. -/
def scale100 (m : List (List ℚ)) : List (List ℚ) :=
  m.map (fun r => r.map (fun x => x * 100))

/-- Columns of `nn.functional.unfold(prices.unsqueeze(1).unsqueeze(3),
kernel_size=(window,1))` for one row: sliding windows of length `window`,
column `i` holding `p[i..i+window-1]`. -/
def unfoldCols (window : Nat) (p : List ℚ) : List (List ℚ) :=
  (List.range (p.length + 1 - window)).map (fun i => (p.drop i).take window)

/-- `torch.var` of one sample list with the default unbiased estimator:
sum of squared deviations from the mean divided by `n - 1`. -/
def varUnbiased (xs : List ℚ) : ℚ :=
  ((xs.map (fun x => (x - xs.sum / (xs.length : ℚ)) ^ 2)).sum) / ((xs.length : ℚ) - 1)

/-- `var = torch.var(x, dim=1)` where `x` is the unfold of `prices`:
per row, the unbiased variance of each sliding window of length `window`. -/
def var_raw (prices : List (List ℚ)) (window : Nat) : List (List ℚ) :=
  prices.map (fun p => (unfoldCols window p).map varUnbiased)

/-- The `macd1` series of `create_indicators` before the `* 100`:
`malong = moving_average(prices, window//2)[:, -input_length:]`,
`mashort = moving_average(prices, window//6)[:, -input_length:]`,
`macd1 = (mashort - malong) / malong` elementwise. -/
def macd1_raw (prices : List (List ℚ)) (window : Nat) : List (List ℚ) :=
  let input_length := tensorWidth prices - window + 1
  let malong := (moving_average prices (window / 2)).map (lastSlice input_length)
  let mashort := (moving_average prices (window / 6)).map (lastSlice input_length)
  List.zipWith (List.zipWith (fun s l => (s - l) / l)) mashort malong

/-- The `macd2` series of `create_indicators` before the `* 100`:
long window `window`, short window `window//3`. -/
def macd2_raw (prices : List (List ℚ)) (window : Nat) : List (List ℚ) :=
  let input_length := tensorWidth prices - window + 1
  let malong := (moving_average prices window).map (lastSlice input_length)
  let mashort := (moving_average prices (window / 3)).map (lastSlice input_length)
  List.zipWith (List.zipWith (fun s l => (s - l) / l)) mashort malong

/-- The `pct` series of `create_indicators` before the `* 100`:
`percent_change(prices)[:, -input_length:]`. -/
def pct_raw (prices : List (List ℚ)) (window : Nat) : List (List ℚ) :=
  let input_length := tensorWidth prices - window + 1
  (percent_change prices).map (lastSlice input_length)

/-- Numpy-style broadcast of `v / m` for a 1-D `v` (shape `(B,)`) against a
2-D rectangular `m` (shape `(m.length, L)`): `v` is right-aligned, so its
axis is matched against `L`; the result has `m.length` rows of width
`max B L`, and `none` is returned exactly when torch raises because the
trailing axes are incompatible (`B ≠ L` with both exceeding 1). -/
def broadcastDivVecMat (v : List ℚ) (m : List (List ℚ)) : Option (List (List ℚ)) :=
  let B := v.length
  let L := (m.headD []).length
  if B = L ∨ B = 1 ∨ L = 1 then
    some (m.map (fun row =>
      (List.range (max B L)).map (fun j =>
        v.getD (if B = 1 then 0 else j) 0 / row.getD (if L = 1 then 0 else j) 0)))
  else none

/-- A tensor stored in the indicator dict: 2-D (`mat`) for a full series,
1-D (`vec`) after the `[:, -1]` reduction. -/
inductive TOut where
  | vec : List ℚ → TOut
  | mat : List (List ℚ) → TOut
deriving DecidableEq, Repr

/-- The dict returned by `create_indicators`, with one field per key. -/
structure IndicatorData where
  macd1 : TOut
  macd2 : TOut
  pct : TOut
  var : TOut
deriving DecidableEq, Repr

/-- `create_indicators(prices, window, series)` from the source.
`input_length = prices.shape[1] - window + 1` (the claims below always
assume `window ≤ T`, where the ℕ subtraction agrees with Python).  Each of
`macd1`, `macd2`, `pct` is computed as a series, reduced with `[:, -1]`
when `series` is false, and scaled by 100.  For `var` the source reduces
`var` to shape `(batch,)` first and only then divides by `malong` of shape
`(batch, input_length)`, so that division broadcasts (or raises, modelled
by `none`). -/
def create_indicators (prices : List (List ℚ)) (window : Nat) (series : Bool) :
    Option IndicatorData :=
  let input_length := tensorWidth prices - window + 1
  let macd1 := macd1_raw prices window
  let macd2 := macd2_raw prices window
  let pct := pct_raw prices window
  let malong := (moving_average prices window).map (lastSlice input_length)
  let var := var_raw prices window
  if series then
    some { macd1 := TOut.mat (scale100 macd1)
         , macd2 := TOut.mat (scale100 macd2)
         , pct := TOut.mat (scale100 pct)
         , var := TOut.mat (scale100
             (List.zipWith (List.zipWith (fun x l => x / l)) var malong)) }
  else
    match broadcastDivVecMat (var.map (fun r => r.getLastD 0)) malong with
    | none => none
    | some q =>
      some { macd1 := TOut.vec ((macd1.map (fun r => r.getLastD 0)).map (fun x => x * 100))
           , macd2 := TOut.vec ((macd2.map (fun r => r.getLastD 0)).map (fun x => x * 100))
           , pct := TOut.vec ((pct.map (fun r => r.getLastD 0)).map (fun x => x * 100))
           , var := TOut.mat (scale100 q) }

/-- `nn.Linear` with rows paired with their bias entries (the pairing is an
invariant of the torch module: one bias per output feature).  Applying it
to `x` yields one output per row: the dot product with `x` plus the bias. -/
def linApply (rows : List (List ℚ × ℚ)) (x : List ℚ) : List ℚ :=
  rows.map (fun pr => (List.zipWith (fun a b => a * b) pr.1 x).sum + pr.2)

/-- `nn.BatchNorm1d` in evaluation mode: a per-channel affine map
`v ↦ scale * v + shift`, where `scale = gamma / sqrt(running_var + eps)` and
`shift = beta - running_mean * scale` are the effective (real, here
rational) constants held by the module. -/
def bnApply (params : List (ℚ × ℚ)) (x : List ℚ) : List ℚ :=
  List.zipWith (fun pr v => pr.1 * v + pr.2) params x

/-- `nn.ReLU` on one scalar. -/
def reluQ (x : ℚ) : ℚ := max x 0

/-- One `Linear → BatchNorm1d → (ReLU)` group produced by `create_net`;
`act` is false only for the last group when `omit_last_activation` is set. -/
structure Block where
  lin : List (List ℚ × ℚ)
  bn : List (ℚ × ℚ)
  act : Bool
deriving DecidableEq, Repr

/-- Apply one block. -/
def blockApply (b : Block) (x : List ℚ) : List ℚ :=
  let y := bnApply b.bn (linApply b.lin x)
  if b.act then y.map reluQ else y

/-- `nn.Sequential` of the blocks produced by `create_net`. -/
def runNet (bs : List Block) (x : List ℚ) : List ℚ :=
  bs.foldl (fun acc b => blockApply b acc) x

/-- Shape discipline of a net built by `create_net(layer_sizes)`:
one block per consecutive pair of sizes, each block producing
(linear rows and batch-norm channels) the next size. -/
def wfNet : List Block → List Nat → Bool
  | [], [_] => true
  | b :: bs, _ :: nout :: rest =>
    b.lin.length == nout && b.bn.length == nout && wfNet bs (nout :: rest)
  | _, _ => false

/-- Weights of `nn.GRUCell` split into the six affine maps of the gate
equations (`inn` is the candidate-state input map, named `in` in torch). -/
structure GRUCellW where
  ir : List (List ℚ × ℚ)
  iz : List (List ℚ × ℚ)
  inn : List (List ℚ × ℚ)
  hr : List (List ℚ × ℚ)
  hz : List (List ℚ × ℚ)
  hn : List (List ℚ × ℚ)
deriving DecidableEq, Repr

/-- One step of `nn.GRUCell`, parametrised by the sigmoid `sg` and tanh
`th` scalar functions (transcendental in torch, abstract here):
`r = sg(W_ir x + W_hr h)`, `z = sg(W_iz x + W_hz h)`,
`n = th(W_in x + r * (W_hn h))`, `h = (1 - z) * n + z * h`. -/
def gruCell (sg th : ℚ → ℚ) (g : GRUCellW) (x h : List ℚ) : List ℚ :=
  let r := (List.zipWith (fun a b => a + b) (linApply g.ir x) (linApply g.hr h)).map sg
  let z := (List.zipWith (fun a b => a + b) (linApply g.iz x) (linApply g.hz h)).map sg
  let n := (List.zipWith (fun a b => a + b) (linApply g.inn x)
    (List.zipWith (fun a b => a * b) r (linApply g.hn h))).map th
  List.zipWith (fun a b => a + b)
    (List.zipWith (fun zi ni => (1 - zi) * ni) z n)
    (List.zipWith (fun a b => a * b) z h)

/-- `MarketPredictor` instance: mode flag, the two `create_net` nets and
the GRU cell weights (unused when `recurrent` is false). -/
structure MarketPredictor where
  input_channels : Nat
  recurrent : Bool
  finput : List Block
  foutput : List Block
  gru : GRUCellW
deriving DecidableEq, Repr

/-- `finput_layer_sizes = [input_channels, 8, 16, 16]`. -/
def finput_layer_sizes (p : MarketPredictor) : List Nat :=
  [p.input_channels, 8, 16, 16]

/-- `foutput_layer_sizes = [16, 16, 8, 3]`. -/
def foutput_layer_sizes : List Nat := [16, 16, 8, 3]

/-- Input of `forward`: rank 3 (batch × time × channels) in recurrent
mode, rank 2 (batch × channels) otherwise. -/
inductive MPInput where
  | seq3 : List (List (List ℚ)) → MPInput
  | flat2 : List (List ℚ) → MPInput
deriving DecidableEq, Repr

/-- `nn.functional.softmax(v, dim=1)` on one row, parametrised by the
(transcendental, here abstract) exponential `e`:
`softmax(v)_i = e(v_i) / Σ_j e(v_j)`. -/
def softmaxQ (e : ℚ → ℚ) (v : List ℚ) : List ℚ :=
  let s := (v.map e).sum
  v.map (fun x => e x / s)

/-- `MarketPredictor.forward`.  In recurrent mode the batch × time input is
encoded per timestep (the reshape to `(batch*time, channels)` followed by
the per-sample evaluation-mode nets acts independently on each timestep),
the GRU hidden state starts at zeros and is folded through time, and the
decoder plus softmax is applied to the final hidden state.  In
non-recurrent mode encoder, decoder and softmax apply to each batch row.
The unpacking of `x.shape` fails (modelled by `none`) when the input rank
does not match the mode. -/
def forward (sg th e : ℚ → ℚ) (p : MarketPredictor) : MPInput → Option (List (List ℚ))
  | MPInput.seq3 x =>
    if p.recurrent then
      some (x.map (fun sample =>
        let xin := sample.map (runNet p.finput)
        let hidden := xin.foldl (fun h xt => gruCell sg th p.gru xt h)
          (List.replicate ((finput_layer_sizes p).getLastD 0) 0)
        softmaxQ e (runNet p.foutput hidden)))
    else none
  | MPInput.flat2 x =>
    if p.recurrent then none
    else some (x.map (fun sample =>
      softmaxQ e (runNet p.foutput (runNet p.finput sample))))

/-! ### Auxiliary definitions used by the claim statements -/

/-- Spec-side count: batch elements whose argmax predicted category
exactly equals the category derived from `truth` by `to_categorical`. -/
def specMatchCount (dist : List (List ℚ)) (truth : List ℚ) : Nat :=
  ((List.range truth.length).filter (fun b =>
    decide (((argmaxRow (dist.getD b []) : Nat) : Int) = (to_categorical truth).getD b 0))).length

/-- Spec-side count: batch elements predicted positive, i.e. whose argmax
predicted category is 2. -/
def specPredPosCount (dist : List (List ℚ)) : Nat :=
  ((List.range dist.length).filter (fun b =>
    decide (((argmaxRow (dist.getD b []) : Nat) : Int) = 2))).length

/-- Spec-side count: batch elements whose ground-truth category is 2. -/
def specTruthPosCount (truth : List ℚ) : Nat :=
  ((List.range truth.length).filter (fun b =>
    decide ((to_categorical truth).getD b 0 = 2))).length

/-- Spec-side count: true positives for positive class 2. -/
def specTPCount (dist : List (List ℚ)) (truth : List ℚ) : Nat :=
  ((List.range truth.length).filter (fun b =>
    decide (((argmaxRow (dist.getD b []) : Nat) : Int) = 2
      ∧ (to_categorical truth).getD b 0 = 2))).length

/-- Mean of the `w2` consecutive prices starting at position `j`. -/
def winMean (p : List ℚ) (w2 j : Nat) : ℚ :=
  (((p.drop j).take w2).sum) / (w2 : ℚ)

/-- A zero-weight linear row used by the `forward_prob_rows` witness. -/
def egLinRow : List ℚ × ℚ := ([], 0)

/-- A zero batch-norm channel used by the `forward_prob_rows` witness. -/
def egBnPar : ℚ × ℚ := (0, 0)

/-- A decoder of shape `foutput_layer_sizes = [16,16,8,3]` with zero
weights, used by the `forward_prob_rows` witness. -/
def egFoutput : List Block :=
  [⟨[egLinRow, egLinRow, egLinRow, egLinRow, egLinRow, egLinRow, egLinRow, egLinRow,
     egLinRow, egLinRow, egLinRow, egLinRow, egLinRow, egLinRow, egLinRow, egLinRow],
    [egBnPar, egBnPar, egBnPar, egBnPar, egBnPar, egBnPar, egBnPar, egBnPar,
     egBnPar, egBnPar, egBnPar, egBnPar, egBnPar, egBnPar, egBnPar, egBnPar], true⟩,
   ⟨[egLinRow, egLinRow, egLinRow, egLinRow, egLinRow, egLinRow, egLinRow, egLinRow],
    [egBnPar, egBnPar, egBnPar, egBnPar, egBnPar, egBnPar, egBnPar, egBnPar], true⟩,
   ⟨[egLinRow, egLinRow, egLinRow], [egBnPar, egBnPar, egBnPar], false⟩]

/-- A concrete non-recurrent predictor used by the `forward_prob_rows`
witness. -/
def egPredictor : MarketPredictor :=
  ⟨1, false, [], egFoutput, ⟨[], [], [], [], [], []⟩⟩

/-! ### Generic list access lemmas -/

theorem getD_map_lt {α β : Type} (f : α → β) (l : List α) (b : Nat)
    (h : b < l.length) (d : α) (d2 : β) :
    (l.map f).getD b d2 = f (l.getD b d) := by
  rw [List.getD_eq_getElem?_getD, List.getElem?_map, List.getElem?_eq_getElem h,
    List.getD_eq_getElem?_getD, List.getElem?_eq_getElem h]
  rfl

theorem getD_range_map {β : Type} (f : Nat → β) (n i : Nat) (h : i < n) (d : β) :
    ((List.range n).map f).getD i d = f i := by
  rw [getD_map_lt f (List.range n) i (by simpa using h) 0 d]
  rw [List.getD_eq_getElem?_getD, List.getElem?_range h]
  rfl

theorem getD_zipWith_lt {α β γ : Type} (f : α → β → γ) (a : List α) (b : List β)
    (i : Nat) (ha : i < a.length) (hb : i < b.length) (da : α) (db : β) (dc : γ) :
    (List.zipWith f a b).getD i dc = f (a.getD i da) (b.getD i db) := by
  rw [List.getD_eq_getElem?_getD, List.getElem?_zipWith,
    List.getElem?_eq_getElem ha, List.getElem?_eq_getElem hb,
    List.getD_eq_getElem?_getD, List.getElem?_eq_getElem ha,
    List.getD_eq_getElem?_getD, List.getElem?_eq_getElem hb]
  rfl

theorem getD_drop {α : Type} (l : List α) (m i : Nat) (d : α) :
    (l.drop m).getD i d = l.getD (m + i) d := by
  rw [List.getD_eq_getElem?_getD, List.getElem?_drop, List.getD_eq_getElem?_getD]

theorem getD_take_lt {α : Type} (l : List α) (n i : Nat) (h : i < n) (d : α) :
    (l.take n).getD i d = l.getD i d := by
  rw [List.getD_eq_getElem?_getD, List.getElem?_take, if_pos h,
    List.getD_eq_getElem?_getD]

theorem getD_mem {α : Type} (l : List α) (b : Nat) (h : b < l.length) (d : α) :
    l.getD b d ∈ l := by
  rw [List.getD_eq_getElem?_getD, List.getElem?_eq_getElem h]
  exact List.getElem_mem h

/-! ### Indicator engine lemmas -/

theorem zip_replicate_mul_sum (c : ℚ) :
    ∀ (w : Nat) (l : List ℚ),
      (List.zipWith (fun a b => a * b) (List.replicate w c) l).sum
        = c * (l.take w).sum
  | 0, l => by simp
  | w + 1, [] => by simp
  | w + 1, x :: xs => by
    simp [List.replicate_succ, zip_replicate_mul_sum c w xs, mul_add]

theorem maRow_length (w : Nat) (p : List ℚ) :
    (maRow w p).length = p.length + 1 - w := by
  simp [maRow]

theorem maRow_getD (w : Nat) (p : List ℚ) (i : Nat)
    (h : i < p.length + 1 - w) :
    (maRow w p).getD i 0 = ((p.drop i).take w).sum / (w : ℚ) := by
  rw [maRow, getD_range_map _ _ _ h, zip_replicate_mul_sum, one_div_mul_eq_div]

theorem lastSlice_length (k : Nat) (r : List ℚ) (hk : k ≠ 0) (hkr : k ≤ r.length) :
    (lastSlice k r).length = k := by
  simp only [lastSlice, if_neg hk, List.length_drop]
  omega

theorem lastSlice_getD (k : Nat) (r : List ℚ) (i : Nat) (d : ℚ) (hk : k ≠ 0) :
    (lastSlice k r).getD i d = r.getD (r.length - k + i) d := by
  simp only [lastSlice, if_neg hk]
  exact getD_drop r _ i d

/-- Claim C3: for a (batch × T) price tensor and a window `w` with
`1 ≤ w ≤ T`, `moving_average` keeps the batch dimension, its time dimension
has length `T - w + 1`, and the entry at time index `i` is the arithmetic
mean of the `w` consecutive prices starting at index `i`. -/
theorem moving_average_spec (prices : List (List ℚ)) (T w : Nat)
    (hrect : ∀ p ∈ prices, p.length = T) (hw : 1 ≤ w) (hwT : w ≤ T)
    (b : Nat) (hb : b < prices.length) :
    (moving_average prices w).length = prices.length ∧
    ((moving_average prices w).getD b []).length = T - w + 1 ∧
    ∀ i, i < T - w + 1 →
      ((moving_average prices w).getD b []).getD i 0
        = ((((prices.getD b []).drop i).take w).sum) / (w : ℚ) := by
  have hp : (prices.getD b []).length = T := hrect _ (getD_mem prices b hb [])
  have hma : (moving_average prices w).getD b [] = maRow w (prices.getD b []) := by
    rw [moving_average, getD_map_lt (maRow w) prices b hb []]
  refine ⟨by simp [moving_average], ?_, ?_⟩
  · rw [hma, maRow_length, hp]; omega
  · intro i hi
    rw [hma, maRow_getD w _ i (by omega)]

/-- Witness for `moving_average_spec` at `prices = [[1,2,3]]`, `w = 2`. -/
theorem moving_average_spec_witness :
    (moving_average [[1, 2, 3]] 2).length = 1 ∧
    ((moving_average [[1, 2, 3]] 2).getD 0 []).length = 3 - 2 + 1 ∧
    ∀ i, i < 3 - 2 + 1 →
      ((moving_average [[1, 2, 3]] 2).getD 0 []).getD i 0
        = (((([1, 2, 3] : List ℚ).drop i).take 2).sum) / (2 : ℚ) :=
  moving_average_spec [[1, 2, 3]] 3 2 (by decide) (by decide) (by decide) 0 (by decide)

/-- Claim C4: for a (batch × T) price tensor with `T ≥ 2`, `percent_change`
keeps the batch dimension, its time dimension has length `T - 1`, and the
entry at time index `t` is `prices[t+1] / prices[t] - 1`. -/
theorem percent_change_spec (prices : List (List ℚ)) (T : Nat)
    (hrect : ∀ p ∈ prices, p.length = T) (hT : 2 ≤ T)
    (b : Nat) (hb : b < prices.length) :
    (percent_change prices).length = prices.length ∧
    ((percent_change prices).getD b []).length = T - 1 ∧
    ∀ t, t < T - 1 →
      ((percent_change prices).getD b []).getD t 0
        = (prices.getD b []).getD (t + 1) 0 / (prices.getD b []).getD t 0 - 1 := by
  have hp : (prices.getD b []).length = T := hrect _ (getD_mem prices b hb [])
  have hpc : (percent_change prices).getD b []
      = List.zipWith (fun a b => b / a - 1) (prices.getD b []) ((prices.getD b []).drop 1) := by
    rw [percent_change, getD_map_lt _ prices b hb []]
  refine ⟨by simp [percent_change], ?_, ?_⟩
  · rw [hpc, List.length_zipWith, List.length_drop, hp]; omega
  · intro t ht
    rw [hpc, getD_zipWith_lt _ _ _ t (by omega) (by rw [List.length_drop, hp]; omega) 0 0 0,
      getD_drop, Nat.add_comm 1 t]

/-- Witness for `percent_change_spec` at `prices = [[1,2,4]]`. -/
theorem percent_change_spec_witness :
    (percent_change [[1, 2, 4]]).length = 1 ∧
    ((percent_change [[1, 2, 4]]).getD 0 []).length = 3 - 1 ∧
    ∀ t, t < 3 - 1 →
      ((percent_change [[1, 2, 4]]).getD 0 []).getD t 0
        = ([1, 2, 4] : List ℚ).getD (t + 1) 0 / ([1, 2, 4] : List ℚ).getD t 0 - 1 :=
  percent_change_spec [[1, 2, 4]] 3 (by decide) (by decide) 0 (by decide)

/-! ### Labeler lemmas -/

theorem to_categorical_nil : to_categorical [] = [] := rfl

theorem to_categorical_cons (v : ℚ) (rest : List ℚ) :
    to_categorical (v :: rest)
      = (if v > 0.3 then 2 else if v > -0.3 then 1 else 0) :: to_categorical rest := by
  simp only [to_categorical, List.length_cons, List.replicate_succ,
    List.zipWith_cons_cons, List.map_cons]
  congr 1
  by_cases h1 : v > (0.3 : ℚ) <;> by_cases h2 : v > (-0.3 : ℚ) <;>
    simp [h1, h2] <;> decide

theorem to_categorical_length (data : List ℚ) :
    (to_categorical data).length = data.length := by
  induction data with
  | nil => rfl
  | cons v rest ih => rw [to_categorical_cons]; simp [ih]

theorem to_categorical_getD :
    ∀ (data : List ℚ) (i : Nat), i < data.length →
      (to_categorical data).getD i 0
        = (if data.getD i 0 > 0.3 then 2 else if data.getD i 0 > -0.3 then 1 else 0)
  | [], i, hi => by simp at hi
  | v :: rest, 0, _ => by rw [to_categorical_cons]; rfl
  | v :: rest, i + 1, hi => by
    rw [to_categorical_cons]
    simpa using to_categorical_getD rest i (by simpa using hi)

/-- Claim C2: `to_categorical` maps the value at each position to category
2 iff it exceeds 0.3, to category 1 iff it exceeds −0.3 but not 0.3, and to
category 0 iff it is at most −0.3, with both boundaries behaving per these
strict/non-strict inequalities. -/
theorem to_categorical_spec (data : List ℚ) (i : Nat) (hi : i < data.length) :
    ((to_categorical data).getD i 0 = 2 ↔ data.getD i 0 > 0.3) ∧
    ((to_categorical data).getD i 0 = 1 ↔ (-0.3 < data.getD i 0 ∧ data.getD i 0 ≤ 0.3)) ∧
    ((to_categorical data).getD i 0 = 0 ↔ data.getD i 0 ≤ -0.3) := by
  rw [to_categorical_getD data i hi]
  by_cases h1 : data.getD i 0 > (0.3 : ℚ)
  · rw [if_pos h1]
    exact ⟨iff_of_true rfl h1,
      iff_of_false (by decide) (fun h => absurd h.2 (not_le.mpr h1)),
      iff_of_false (by decide) (by intro h; linarith)⟩
  · by_cases h2 : data.getD i 0 > (-0.3 : ℚ)
    · rw [if_neg h1, if_pos h2]
      exact ⟨iff_of_false (by decide) h1,
        iff_of_true rfl ⟨h2, not_lt.mp h1⟩,
        iff_of_false (by decide) (by intro h; linarith)⟩
    · rw [if_neg h1, if_neg h2]
      exact ⟨iff_of_false (by decide) h1,
        iff_of_false (by decide) (fun h => absurd h.1 h2),
        iff_of_true rfl (not_lt.mp h2)⟩

/-- Witness for `to_categorical_spec` at the boundary value 0.3 itself. -/
theorem to_categorical_spec_witness :
    ((to_categorical [0.3, -0.3, 1]).getD 0 0 = 2 ↔ ([0.3, -0.3, 1] : List ℚ).getD 0 0 > 0.3) ∧
    ((to_categorical [0.3, -0.3, 1]).getD 0 0 = 1 ↔
      (-0.3 < ([0.3, -0.3, 1] : List ℚ).getD 0 0 ∧ ([0.3, -0.3, 1] : List ℚ).getD 0 0 ≤ 0.3)) ∧
    ((to_categorical [0.3, -0.3, 1]).getD 0 0 = 0 ↔ ([0.3, -0.3, 1] : List ℚ).getD 0 0 ≤ -0.3) :=
  to_categorical_spec [0.3, -0.3, 1] 0 (by decide)

/-! ### Evaluator lemmas -/

theorem count_true_zipWith_eq_filter_length {α β : Type} (f : α → β → Bool) :
    ∀ (a : List α) (b : List β) (da : α) (db : β), a.length = b.length →
      (List.zipWith f a b).count true
        = ((List.range a.length).filter (fun i => f (a.getD i da) (b.getD i db))).length
  | [], [], _, _, _ => by simp
  | [], y :: ys, _, _, h => by simp at h
  | x :: xs, [], _, _, h => by simp at h
  | x :: xs, y :: ys, da, db, h => by
    have ih := count_true_zipWith_eq_filter_length f xs ys da db (by simpa using h)
    simp only [List.zipWith_cons_cons, List.count_cons, List.length_cons,
      List.range_succ_eq_map, List.filter_cons, List.filter_map, List.length_map]
    simp only [List.getD_cons_zero, List.getD_cons_succ, Function.comp_def]
    by_cases hxy : f x y = true
    · simp [hxy, ih]
    · simp [hxy, ih, Bool.not_eq_true] at *

theorem count_true_map_eq_filter_length {α : Type} (g : α → Bool) :
    ∀ (l : List α) (d : α),
      (l.map g).count true
        = ((List.range l.length).filter (fun i => g (l.getD i d))).length
  | [], _ => by simp
  | x :: xs, d => by
    have ih := count_true_map_eq_filter_length g xs d
    simp only [List.map_cons, List.count_cons, List.length_cons,
      List.range_succ_eq_map, List.filter_cons, List.filter_map, List.length_map]
    simp only [List.getD_cons_zero, List.getD_cons_succ, Function.comp_def]
    by_cases hx : g x = true
    · simp [hx, ih]
    · simp [hx, ih, Bool.not_eq_true] at *

theorem and_decide_eq (P Q : Prop) [Decidable P] [Decidable Q] :
    and (decide P) (decide Q) = decide (P ∧ Q) := by
  by_cases hP : P <;> by_cases hQ : Q <;> simp [hP, hQ]

theorem dist_pos_eq_map (dist : List (List ℚ)) :
    dist_pos dist = dist.map (fun r => decide (((argmaxRow r : Nat) : Int) = 2)) := by
  simp only [dist_pos, dist_cat, List.map_map, Function.comp_def]

theorem dist_pos_count_eq (dist : List (List ℚ)) :
    (dist_pos dist).count true = specPredPosCount dist := by
  rw [dist_pos_eq_map, count_true_map_eq_filter_length _ dist []]
  rfl

theorem truth_pos_count_eq (truth : List ℚ) :
    (truth_pos truth).count true = specTruthPosCount truth := by
  have h := count_true_map_eq_filter_length (fun c : Int => decide (c = 2))
    (to_categorical truth) 0
  simp only [truth_pos]
  rw [h, to_categorical_length]
  rfl

theorem correctCount_eq (dist : List (List ℚ)) (truth : List ℚ)
    (hlen : dist.length = truth.length) :
    correctCount dist truth = specTPCount dist truth := by
  have hdp_len : (dist_pos dist).length = dist.length := by
    simp [dist_pos, dist_cat]
  have htp_len : (truth_pos truth).length = truth.length := by
    simp [truth_pos, to_categorical_length]
  rw [correctCount,
    count_true_zipWith_eq_filter_length and (dist_pos dist) (truth_pos truth)
      false false (by rw [hdp_len, htp_len, hlen]),
    hdp_len, hlen, specTPCount]
  apply congrArg List.length
  apply List.filter_congr
  intro i hi
  have hi1 : i < truth.length := List.mem_range.mp hi
  have hi2 : i < dist.length := by omega
  rw [dist_pos_eq_map, getD_map_lt _ dist i hi2 [] false,
    truth_pos, getD_map_lt _ (to_categorical truth) i (by rw [to_categorical_length]; omega) 0 false,
    and_decide_eq]

theorem match_count_eq (dist : List (List ℚ)) (truth : List ℚ)
    (hlen : dist.length = truth.length) :
    (List.zipWith (fun a b => decide (a = b)) (dist_cat dist)
      (to_categorical truth)).count true = specMatchCount dist truth := by
  have hdc_len : (dist_cat dist).length = dist.length := by simp [dist_cat]
  rw [count_true_zipWith_eq_filter_length _ _ _ 0 0
      (by rw [hdc_len, to_categorical_length, hlen]),
    hdc_len, hlen, specMatchCount]
  apply congrArg List.length
  apply List.filter_congr
  intro i hi
  have hi1 : i < truth.length := List.mem_range.mp hi
  have hi2 : i < dist.length := by omega
  rw [dist_cat, getD_map_lt _ dist i hi2 [] 0]

/-- Claim C9: for predictions and ground truth of matching batch size,
`stats` returns accuracy equal to the fraction of batch elements whose
argmax predicted category exactly equals the `to_categorical` label, and
precision and recall computed with category 2 as the only positive class
(true positives over predicted positives, resp. over ground-truth
positives). -/
theorem stats_spec (dist : List (List ℚ)) (truth : List ℚ)
    (hlen : dist.length = truth.length) :
    (stats dist truth).accuracy = (specMatchCount dist truth : ℚ) / (truth.length : ℚ) ∧
    (stats dist truth).precision = (specTPCount dist truth : ℚ) / (specPredPosCount dist : ℚ) ∧
    (stats dist truth).recallQ = (specTPCount dist truth : ℚ) / (specTruthPosCount truth : ℚ) := by
  refine ⟨?_, ?_, ?_⟩
  · simp only [stats]
    rw [match_count_eq dist truth hlen, to_categorical_length]
  · simp only [stats]
    rw [dist_pos_count_eq, correctCount_eq dist truth hlen]
  · simp only [stats]
    rw [truth_pos_count_eq, correctCount_eq dist truth hlen]

/-- Witness for `stats_spec` at a concrete two-element batch. -/
theorem stats_spec_witness :
    (stats [[1, 0, 0], [0, 0, 1]] [0, 1]).accuracy
        = (specMatchCount [[1, 0, 0], [0, 0, 1]] [0, 1] : ℚ) / ((2 : Nat) : ℚ) ∧
    (stats [[1, 0, 0], [0, 0, 1]] [0, 1]).precision
        = (specTPCount [[1, 0, 0], [0, 0, 1]] [0, 1] : ℚ)
            / (specPredPosCount [[1, 0, 0], [0, 0, 1]] : ℚ) ∧
    (stats [[1, 0, 0], [0, 0, 1]] [0, 1]).recallQ
        = (specTPCount [[1, 0, 0], [0, 0, 1]] [0, 1] : ℚ)
            / (specTruthPosCount [0, 1] : ℚ) :=
  stats_spec [[1, 0, 0], [0, 0, 1]] [0, 1] (by decide)

/-- Claim C6: when no batch element has argmax predicted category 2, the
predicted-positive count is zero, so the precision computation performed by
`stats` is a division with divisor 0 (torch evaluates it without any guard,
yielding NaN; the ℚ embedding totalises the same division). -/
theorem stats_precision_div_zero (dist : List (List ℚ)) (truth : List ℚ)
    (h : ∀ r ∈ dist, argmaxRow r ≠ 2) :
    (dist_pos dist).count true = 0 ∧
    (stats dist truth).precision = (correctCount dist truth : ℚ) / (0 : ℚ) := by
  have hcount : (dist_pos dist).count true = 0 := by
    rw [List.count_eq_zero]
    intro hmem
    rw [dist_pos_eq_map] at hmem
    rcases List.mem_map.mp hmem with ⟨r, hr, hdec⟩
    have : ((argmaxRow r : Nat) : Int) = 2 := of_decide_eq_true hdec
    exact h r hr (by exact_mod_cast this)
  refine ⟨hcount, ?_⟩
  simp only [stats]
  rw [hcount]
  norm_num

/-- Witness for `stats_precision_div_zero`: one batch element predicted
category 0. -/
theorem stats_precision_div_zero_witness :
    (dist_pos [[1, 0, 0]]).count true = 0 ∧
    (stats [[1, 0, 0]] [5]).precision = (correctCount [[1, 0, 0]] [5] : ℚ) / (0 : ℚ) :=
  stats_precision_div_zero [[1, 0, 0]] [5] (by decide)

/-- Claim C10: when no batch element has ground-truth category 2, the
ground-truth positive count is zero, so the recall computation performed by
`stats` is a division with divisor 0, symmetric to the precision case. -/
theorem stats_recall_div_zero (dist : List (List ℚ)) (truth : List ℚ)
    (h : ∀ c ∈ to_categorical truth, c ≠ 2) :
    (truth_pos truth).count true = 0 ∧
    (stats dist truth).recallQ = (correctCount dist truth : ℚ) / (0 : ℚ) := by
  have hcount : (truth_pos truth).count true = 0 := by
    rw [List.count_eq_zero]
    intro hmem
    rw [truth_pos] at hmem
    rcases List.mem_map.mp hmem with ⟨c, hc, hdec⟩
    exact h c hc (of_decide_eq_true hdec)
  refine ⟨hcount, ?_⟩
  simp only [stats]
  rw [hcount]
  norm_num

/-- Witness for `stats_recall_div_zero`: one batch element with
ground-truth category 1. -/
theorem stats_recall_div_zero_witness :
    (truth_pos [0]).count true = 0 ∧
    (stats [[0, 0, 1]] [0]).recallQ = (correctCount [[0, 0, 1]] [0] : ℚ) / (0 : ℚ) :=
  stats_recall_div_zero [[0, 0, 1]] [0] (by
    rw [to_categorical_cons, to_categorical_nil]
    norm_num)

/-! ### Indicator engine: division-by-zero and series=False shape results -/

/-- Claim C7: the divisions by the long moving average in `create_indicators`
are unguarded.  On the constant-zero price row of length 6 with window 6,
both tensors bound to `malong` in the source (the `window//2 = 3` average
used as the `macd1` denominator, and the `window = 6` average used as the
`macd2` and `var` denominator) are zero at the one position used, yet
`create_indicators` still returns a dict with no error branch taken: every
division is executed with divisor 0 (torch would yield NaN there; the ℚ
embedding totalises `x / 0 = 0`, whence the recorded values). -/
theorem create_indicators_div_by_zero_unguarded :
    (moving_average [[0, 0, 0, 0, 0, 0]] 3).map (lastSlice 1) = [[0]] ∧
    (moving_average [[0, 0, 0, 0, 0, 0]] 6).map (lastSlice 1) = [[0]] ∧
    create_indicators [[0, 0, 0, 0, 0, 0]] 6 true
      = some ⟨TOut.mat [[0]], TOut.mat [[0]], TOut.mat [[-100]], TOut.mat [[0]]⟩ := by
  refine ⟨?_, ?_, ?_⟩ <;>
    norm_num [create_indicators, macd1_raw, macd2_raw, pct_raw, var_raw, moving_average,
      maRow, percent_change, lastSlice, tensorWidth, unfoldCols, varUnbiased, scale100,
      List.range_succ, zip_replicate_mul_sum]

/-- Claim C1 is false for the `var` indicator: with `series=False` the source
reduces `var` to shape `(batch,)` before dividing by `malong` of shape
`(batch × input_length)`.  At `prices = [[1,…,7]]`, `window = 6`
(`input_length = 2`), the keys `macd1`, `macd2`, `pct` are indeed the single
most recent value per batch element (shape `(1)`), but `var` broadcasts into
a 1 × 2 matrix.  With batch 3 the trailing axes (3 and 2) are incompatible
and the division raises, embedded as `none`. -/
theorem create_indicators_last_var_shape_bug :
    create_indicators [[1, 2, 3, 4, 5, 6, 7]] 6 false
      = some ⟨TOut.vec [50 / 3], TOut.vec [400 / 9], TOut.vec [50 / 3],
          TOut.mat [[100, 700 / 9]]⟩ ∧
    create_indicators [[1, 2, 3, 4, 5, 6, 7], [1, 2, 3, 4, 5, 6, 7],
        [1, 2, 3, 4, 5, 6, 7]] 6 false
      = none := by
  refine ⟨?_, ?_⟩ <;>
    norm_num [create_indicators, macd1_raw, macd2_raw, pct_raw, var_raw, moving_average,
      maRow, percent_change, lastSlice, tensorWidth, unfoldCols, varUnbiased, scale100,
      broadcastDivVecMat, List.range_succ, zip_replicate_mul_sum]

/-! ### Trailing alignment of the series indicators (claim C5) -/

theorem take_window_eq {α : Type} (p : List α) (n j w2 : Nat) (h : j + w2 ≤ n) :
    ((p.take n).drop j).take w2 = (p.drop j).take w2 := by
  rw [List.drop_take, List.take_take, min_eq_left (by omega)]

theorem winMean_take (p : List ℚ) (n j w2 : Nat) (h : j + w2 ≤ n) :
    winMean (p.take n) w2 j = winMean p w2 j := by
  rw [winMean, winMean, take_window_eq p n j w2 h]

theorem slicedMA_row_length (p : List ℚ) (T w w2 : Nat) (hp : p.length = T)
    (hw2 : 1 ≤ w2) (hle : w2 ≤ w) (hwT : w ≤ T) :
    (lastSlice (T - w + 1) (maRow w2 p)).length = T - w + 1 := by
  apply lastSlice_length _ _ (by omega)
  rw [maRow_length, hp]
  omega

theorem slicedMA_row_getD (p : List ℚ) (T w w2 i : Nat) (hp : p.length = T)
    (hw2 : 1 ≤ w2) (hle : w2 ≤ w) (hwT : w ≤ T) (hi : i < T - w + 1) :
    (lastSlice (T - w + 1) (maRow w2 p)).getD i 0 = winMean p w2 (w - w2 + i) := by
  rw [lastSlice_getD _ _ _ _ (by omega), maRow_length, hp]
  have harg : T + 1 - w2 - (T - w + 1) + i = w - w2 + i := by omega
  rw [harg, maRow_getD w2 p _ (by omega), winMean]

theorem sliced_map_getD (prices : List (List ℚ)) (w2 K b : Nat)
    (hb : b < prices.length) :
    ((moving_average prices w2).map (lastSlice K)).getD b []
      = lastSlice K (maRow w2 (prices.getD b [])) := by
  simp only [moving_average, List.map_map]
  rw [getD_map_lt _ prices b hb []]
  rfl

theorem macd1_raw_eq (prices : List (List ℚ)) (w : Nat) :
    macd1_raw prices w
      = List.zipWith (List.zipWith (fun s l => (s - l) / l))
          ((moving_average prices (w / 6)).map (lastSlice (tensorWidth prices - w + 1)))
          ((moving_average prices (w / 2)).map (lastSlice (tensorWidth prices - w + 1))) := rfl

theorem macd2_raw_eq (prices : List (List ℚ)) (w : Nat) :
    macd2_raw prices w
      = List.zipWith (List.zipWith (fun s l => (s - l) / l))
          ((moving_average prices (w / 3)).map (lastSlice (tensorWidth prices - w + 1)))
          ((moving_average prices w).map (lastSlice (tensorWidth prices - w + 1))) := rfl

theorem pct_raw_eq (prices : List (List ℚ)) (w : Nat) :
    pct_raw prices w
      = (percent_change prices).map (lastSlice (tensorWidth prices - w + 1)) := rfl

theorem macd_pair_length (prices : List (List ℚ)) (K wl ws : Nat) :
    (List.zipWith (List.zipWith (fun s l => (s - l) / l))
      ((moving_average prices ws).map (lastSlice K))
      ((moving_average prices wl).map (lastSlice K))).length = prices.length := by
  simp [moving_average, List.length_zipWith]

theorem macd_pair_row (prices : List (List ℚ)) (T w wl ws b : Nat)
    (hrect : ∀ p ∈ prices, p.length = T)
    (hwT : w ≤ T) (hwl1 : 1 ≤ wl) (hwlw : wl ≤ w) (hws1 : 1 ≤ ws) (hwsw : ws ≤ w)
    (hb : b < prices.length) :
    ((List.zipWith (List.zipWith (fun s l => (s - l) / l))
        ((moving_average prices ws).map (lastSlice (T - w + 1)))
        ((moving_average prices wl).map (lastSlice (T - w + 1)))).getD b []).length
      = T - w + 1 ∧
    ∀ i, i < T - w + 1 →
      ((List.zipWith (List.zipWith (fun s l => (s - l) / l))
          ((moving_average prices ws).map (lastSlice (T - w + 1)))
          ((moving_average prices wl).map (lastSlice (T - w + 1)))).getD b []).getD i 0
        = (winMean (prices.getD b []) ws (w - ws + i)
            - winMean (prices.getD b []) wl (w - wl + i))
              / winMean (prices.getD b []) wl (w - wl + i) := by
  have hp : (prices.getD b []).length = T := hrect _ (getD_mem prices b hb [])
  have hlen_s : ((moving_average prices ws).map (lastSlice (T - w + 1))).length
      = prices.length := by simp [moving_average]
  have hlen_l : ((moving_average prices wl).map (lastSlice (T - w + 1))).length
      = prices.length := by simp [moving_average]
  have hrow : (List.zipWith (List.zipWith (fun s l => (s - l) / l))
      ((moving_average prices ws).map (lastSlice (T - w + 1)))
      ((moving_average prices wl).map (lastSlice (T - w + 1)))).getD b []
      = List.zipWith (fun s l => (s - l) / l)
          (lastSlice (T - w + 1) (maRow ws (prices.getD b [])))
          (lastSlice (T - w + 1) (maRow wl (prices.getD b []))) := by
    rw [getD_zipWith_lt _ _ _ b (by omega) (by omega) [] [] [],
      sliced_map_getD prices ws _ b hb, sliced_map_getD prices wl _ b hb]
  have hls : (lastSlice (T - w + 1) (maRow ws (prices.getD b []))).length = T - w + 1 :=
    slicedMA_row_length _ T w ws hp hws1 hwsw hwT
  have hll : (lastSlice (T - w + 1) (maRow wl (prices.getD b []))).length = T - w + 1 :=
    slicedMA_row_length _ T w wl hp hwl1 hwlw hwT
  constructor
  · rw [hrow, List.length_zipWith, hls, hll]
    omega
  · intro i hi
    rw [hrow, getD_zipWith_lt _ _ _ i (by omega) (by omega) 0 0 0,
      slicedMA_row_getD _ T w ws i hp hws1 hwsw hwT hi,
      slicedMA_row_getD _ T w wl i hp hwl1 hwlw hwT hi]

theorem pct_slice_length (prices : List (List ℚ)) (K : Nat) :
    ((percent_change prices).map (lastSlice K)).length = prices.length := by
  simp [percent_change]

theorem pct_slice_row (prices : List (List ℚ)) (T w b : Nat)
    (hrect : ∀ p ∈ prices, p.length = T) (hw2 : 2 ≤ w) (hwT : w ≤ T)
    (hb : b < prices.length) :
    (((percent_change prices).map (lastSlice (T - w + 1))).getD b []).length
      = T - w + 1 ∧
    ∀ i, i < T - w + 1 →
      (((percent_change prices).map (lastSlice (T - w + 1))).getD b []).getD i 0
        = (prices.getD b []).getD (w - 1 + i) 0 / (prices.getD b []).getD (w - 2 + i) 0 - 1 := by
  have hp : (prices.getD b []).length = T := hrect _ (getD_mem prices b hb [])
  have hrow : ((percent_change prices).map (lastSlice (T - w + 1))).getD b []
      = lastSlice (T - w + 1)
          (List.zipWith (fun a b => b / a - 1) (prices.getD b [])
            ((prices.getD b []).drop 1)) := by
    simp only [percent_change, List.map_map]
    rw [getD_map_lt _ prices b hb []]
    rfl
  have hzlen : (List.zipWith (fun a b => b / a - 1) (prices.getD b [])
      ((prices.getD b []).drop 1)).length = T - 1 := by
    rw [List.length_zipWith, List.length_drop, hp]
    omega
  constructor
  · rw [hrow, lastSlice_length _ _ (by omega) (by omega)]
  · intro i hi
    rw [hrow, lastSlice_getD _ _ _ _ (by omega), hzlen]
    have harg : T - 1 - (T - w + 1) + i = w - 2 + i := by omega
    rw [harg, getD_zipWith_lt _ _ _ _ (by omega) (by rw [List.length_drop, hp]; omega) 0 0 0,
      getD_drop]
    have harg2 : 1 + (w - 2 + i) = w - 1 + i := by omega
    rw [harg2]

theorem var_div_length (prices : List (List ℚ)) (w K : Nat) :
    (List.zipWith (List.zipWith (fun x l => x / l)) (var_raw prices w)
      ((moving_average prices w).map (lastSlice K))).length = prices.length := by
  simp [var_raw, moving_average, List.length_zipWith]

theorem var_div_row (prices : List (List ℚ)) (T w b : Nat)
    (hrect : ∀ p ∈ prices, p.length = T) (hw1 : 1 ≤ w) (hwT : w ≤ T)
    (hb : b < prices.length) :
    ((List.zipWith (List.zipWith (fun x l => x / l)) (var_raw prices w)
        ((moving_average prices w).map (lastSlice (T - w + 1)))).getD b []).length
      = T - w + 1 ∧
    ∀ i, i < T - w + 1 →
      ((List.zipWith (List.zipWith (fun x l => x / l)) (var_raw prices w)
          ((moving_average prices w).map (lastSlice (T - w + 1)))).getD b []).getD i 0
        = varUnbiased (((prices.getD b []).drop i).take w)
            / winMean (prices.getD b []) w i := by
  have hp : (prices.getD b []).length = T := hrect _ (getD_mem prices b hb [])
  have hvlen : (var_raw prices w).length = prices.length := by simp [var_raw]
  have hvrow : (var_raw prices w).getD b []
      = (unfoldCols w (prices.getD b [])).map varUnbiased := by
    rw [var_raw, getD_map_lt _ prices b hb []]
  have hvrowlen : ((var_raw prices w).getD b []).length = T - w + 1 := by
    rw [hvrow]
    simp only [unfoldCols, List.length_map, List.length_range, hp]
    omega
  have hrow : (List.zipWith (List.zipWith (fun x l => x / l)) (var_raw prices w)
      ((moving_average prices w).map (lastSlice (T - w + 1)))).getD b []
      = List.zipWith (fun x l => x / l) ((var_raw prices w).getD b [])
          (lastSlice (T - w + 1) (maRow w (prices.getD b []))) := by
    rw [getD_zipWith_lt _ _ _ b (by omega) (by simp [moving_average]; omega) [] [] [],
      sliced_map_getD prices w _ b hb]
  have hll : (lastSlice (T - w + 1) (maRow w (prices.getD b []))).length = T - w + 1 :=
    slicedMA_row_length _ T w w hp hw1 le_rfl hwT
  constructor
  · rw [hrow, List.length_zipWith, hvrowlen, hll]
    omega
  · intro i hi
    rw [hrow, getD_zipWith_lt _ _ _ i (by omega) (by omega) 0 0 0,
      slicedMA_row_getD _ T w w i hp hw1 le_rfl hwT hi]
    have : ((var_raw prices w).getD b []).getD i 0
        = varUnbiased (((prices.getD b []).drop i).take w) := by
      rw [hvrow, unfoldCols, List.map_map,
        getD_range_map _ _ _ (by rw [hp]; omega) 0]
      rfl
    rw [this]
    have harg : w - w + i = i := by omega
    rw [harg]

theorem scale100_length (m : List (List ℚ)) : (scale100 m).length = m.length := by
  simp [scale100]

theorem scale100_row_length (m : List (List ℚ)) (b : Nat) (hb : b < m.length) :
    ((scale100 m).getD b []).length = (m.getD b []).length := by
  rw [scale100, getD_map_lt _ m b hb []]
  simp

theorem scale100_getD (m : List (List ℚ)) (b i : Nat) (hb : b < m.length)
    (hi : i < (m.getD b []).length) :
    ((scale100 m).getD b []).getD i 0 = (m.getD b []).getD i 0 * 100 := by
  rw [scale100, getD_map_lt _ m b hb [], getD_map_lt _ _ i hi 0 0]

theorem tensorWidth_map_take (prices : List (List ℚ)) (T n : Nat)
    (hrect : ∀ p ∈ prices, p.length = T) (hn : n ≤ T) (hpos : prices ≠ []) :
    tensorWidth (prices.map (List.take n)) = n := by
  cases prices with
  | nil => exact absurd rfl hpos
  | cons p ps =>
    have hp : p.length = T := hrect p (by simp)
    simp only [tensorWidth, List.map_cons, List.headD_cons, List.length_take, hp]
    omega

theorem create_indicators_series_eq (prices : List (List ℚ)) (w : Nat) :
    create_indicators prices w true
      = some ⟨TOut.mat (scale100 (macd1_raw prices w)),
          TOut.mat (scale100 (macd2_raw prices w)),
          TOut.mat (scale100 (pct_raw prices w)),
          TOut.mat (scale100 (List.zipWith (List.zipWith (fun x l => x / l))
            (var_raw prices w)
            ((moving_average prices w).map
              (lastSlice (tensorWidth prices - w + 1)))))⟩ := rfl

/-- Claim C5: with `series=True` (and windows that fit: `6 ≤ w ≤ T`, so all
component windows are at least 1), `create_indicators` returns four series
matrices of identical shape batch × `input_length` (`= T - w + 1`), and
they are trailing-aligned: for every time index `i`, the value of each
indicator at index `i` coincides with the value that the same indicator
takes at the final index when `create_indicators` is run on only the first
`w + i` prices of each row (whose series have exactly `i + 1` entries, so
index `i` is their most recent position).  All four indicators at index `i`
therefore depend on, and end at, the same final price position
`w + i - 1`. -/
theorem create_indicators_series_aligned
    (prices : List (List ℚ)) (T w : Nat)
    (hrect : ∀ p ∈ prices, p.length = T) (hT : tensorWidth prices = T)
    (hw : 6 ≤ w) (hwT : w ≤ T) :
    ∃ m1 m2 mp mv,
      create_indicators prices w true
        = some ⟨TOut.mat m1, TOut.mat m2, TOut.mat mp, TOut.mat mv⟩ ∧
      (m1.length = prices.length ∧ m2.length = prices.length ∧
        mp.length = prices.length ∧ mv.length = prices.length) ∧
      (∀ b, b < prices.length →
        (m1.getD b []).length = T - w + 1 ∧ (m2.getD b []).length = T - w + 1 ∧
        (mp.getD b []).length = T - w + 1 ∧ (mv.getD b []).length = T - w + 1) ∧
      ∀ i, i < T - w + 1 →
        ∃ n1 n2 np nv,
          create_indicators (prices.map (List.take (w + i))) w true
            = some ⟨TOut.mat n1, TOut.mat n2, TOut.mat np, TOut.mat nv⟩ ∧
          (∀ b, b < prices.length →
            (n1.getD b []).length = i + 1 ∧ (n2.getD b []).length = i + 1 ∧
            (np.getD b []).length = i + 1 ∧ (nv.getD b []).length = i + 1) ∧
          ∀ b, b < prices.length →
            (m1.getD b []).getD i 0 = (n1.getD b []).getD i 0 ∧
            (m2.getD b []).getD i 0 = (n2.getD b []).getD i 0 ∧
            (mp.getD b []).getD i 0 = (np.getD b []).getD i 0 ∧
            (mv.getD b []).getD i 0 = (nv.getD b []).getD i 0 := by
  have hpos : prices ≠ [] := by
    intro h
    subst h
    simp [tensorWidth] at hT
    omega
  have hw2 : 1 ≤ w / 2 := by omega
  have hw6 : 1 ≤ w / 6 := by omega
  have hw3 : 1 ≤ w / 3 := by omega
  have hw2w : w / 2 ≤ w := by omega
  have hw6w : w / 6 ≤ w := by omega
  have hw3w : w / 3 ≤ w := by omega
  have hww : w ≤ w := le_rfl
  have hw1 : 1 ≤ w := by omega
  have hwpct : 2 ≤ w := by omega
  have e1 : macd1_raw prices w
      = List.zipWith (List.zipWith (fun s l => (s - l) / l))
          ((moving_average prices (w / 6)).map (lastSlice (T - w + 1)))
          ((moving_average prices (w / 2)).map (lastSlice (T - w + 1))) := by
    rw [macd1_raw_eq, hT]
  have e2 : macd2_raw prices w
      = List.zipWith (List.zipWith (fun s l => (s - l) / l))
          ((moving_average prices (w / 3)).map (lastSlice (T - w + 1)))
          ((moving_average prices w).map (lastSlice (T - w + 1))) := by
    rw [macd2_raw_eq, hT]
  have ep : pct_raw prices w = (percent_change prices).map (lastSlice (T - w + 1)) := by
    rw [pct_raw_eq, hT]
  have ev : List.zipWith (List.zipWith (fun x l => x / l)) (var_raw prices w)
        ((moving_average prices w).map (lastSlice (tensorWidth prices - w + 1)))
      = List.zipWith (List.zipWith (fun x l => x / l)) (var_raw prices w)
        ((moving_average prices w).map (lastSlice (T - w + 1))) := by
    rw [hT]
  refine ⟨_, _, _, _, create_indicators_series_eq prices w, ⟨?_, ?_, ?_, ?_⟩, ?_, ?_⟩
  · rw [scale100_length, e1, macd_pair_length]
  · rw [scale100_length, e2, macd_pair_length]
  · rw [scale100_length, ep, pct_slice_length]
  · rw [scale100_length, ev, var_div_length]
  · intro b hb
    refine ⟨?_, ?_, ?_, ?_⟩
    · rw [scale100_row_length _ b (by rw [e1, macd_pair_length]; exact hb), e1]
      exact (macd_pair_row prices T w (w / 2) (w / 6) b hrect hwT hw2 hw2w hw6 hw6w hb).1
    · rw [scale100_row_length _ b (by rw [e2, macd_pair_length]; exact hb), e2]
      exact (macd_pair_row prices T w w (w / 3) b hrect hwT hw1 hww hw3 hw3w hb).1
    · rw [scale100_row_length _ b (by rw [ep, pct_slice_length]; exact hb), ep]
      exact (pct_slice_row prices T w b hrect hwpct hwT hb).1
    · rw [scale100_row_length _ b (by rw [ev, var_div_length]; exact hb), ev]
      exact (var_div_row prices T w b hrect hw1 hwT hb).1
  · intro i hi
    have hwiT : w + i ≤ T := by omega
    have hrectP : ∀ p ∈ prices.map (List.take (w + i)), p.length = w + i := by
      intro q hq
      rcases List.mem_map.mp hq with ⟨p, hp, rfl⟩
      rw [List.length_take, hrect p hp]
      omega
    have hTP : tensorWidth (prices.map (List.take (w + i))) = w + i :=
      tensorWidth_map_take prices T (w + i) hrect hwiT hpos
    have hwTP : w ≤ w + i := by omega
    have hlenP : (prices.map (List.take (w + i))).length = prices.length := by simp
    have hiP : i < w + i - w + 1 := by omega
    have e1P : macd1_raw (prices.map (List.take (w + i))) w
        = List.zipWith (List.zipWith (fun s l => (s - l) / l))
            ((moving_average (prices.map (List.take (w + i))) (w / 6)).map
              (lastSlice (w + i - w + 1)))
            ((moving_average (prices.map (List.take (w + i))) (w / 2)).map
              (lastSlice (w + i - w + 1))) := by
      rw [macd1_raw_eq, hTP]
    have e2P : macd2_raw (prices.map (List.take (w + i))) w
        = List.zipWith (List.zipWith (fun s l => (s - l) / l))
            ((moving_average (prices.map (List.take (w + i))) (w / 3)).map
              (lastSlice (w + i - w + 1)))
            ((moving_average (prices.map (List.take (w + i))) w).map
              (lastSlice (w + i - w + 1))) := by
      rw [macd2_raw_eq, hTP]
    have epP : pct_raw (prices.map (List.take (w + i))) w
        = (percent_change (prices.map (List.take (w + i)))).map
            (lastSlice (w + i - w + 1)) := by
      rw [pct_raw_eq, hTP]
    have evP : List.zipWith (List.zipWith (fun x l => x / l))
          (var_raw (prices.map (List.take (w + i))) w)
          ((moving_average (prices.map (List.take (w + i))) w).map
            (lastSlice (tensorWidth (prices.map (List.take (w + i))) - w + 1)))
        = List.zipWith (List.zipWith (fun x l => x / l))
          (var_raw (prices.map (List.take (w + i))) w)
          ((moving_average (prices.map (List.take (w + i))) w).map
            (lastSlice (w + i - w + 1))) := by
      rw [hTP]
    refine ⟨_, _, _, _, create_indicators_series_eq _ w, ?_, ?_⟩
    · intro b hb
      have hbP : b < (prices.map (List.take (w + i))).length := by
        rw [hlenP]; exact hb
      refine ⟨?_, ?_, ?_, ?_⟩
      · rw [scale100_row_length _ b (by rw [e1P, macd_pair_length]; exact hbP), e1P]
        rw [(macd_pair_row (prices.map (List.take (w + i))) (w + i) w (w / 2) (w / 6) b
          hrectP hwTP hw2 hw2w hw6 hw6w hbP).1]
        omega
      · rw [scale100_row_length _ b (by rw [e2P, macd_pair_length]; exact hbP), e2P]
        rw [(macd_pair_row (prices.map (List.take (w + i))) (w + i) w w (w / 3) b
          hrectP hwTP hw1 hww hw3 hw3w hbP).1]
        omega
      · rw [scale100_row_length _ b (by rw [epP, pct_slice_length]; exact hbP), epP]
        rw [(pct_slice_row (prices.map (List.take (w + i))) (w + i) w b
          hrectP hwpct hwTP hbP).1]
        omega
      · rw [scale100_row_length _ b (by rw [evP, var_div_length]; exact hbP), evP]
        rw [(var_div_row (prices.map (List.take (w + i))) (w + i) w b
          hrectP hw1 hwTP hbP).1]
        omega
    · intro b hb
      have hbP : b < (prices.map (List.take (w + i))).length := by
        rw [hlenP]; exact hb
      have hPb : (prices.map (List.take (w + i))).getD b []
          = (prices.getD b []).take (w + i) :=
        getD_map_lt (List.take (w + i)) prices b hb [] []
      refine ⟨?_, ?_, ?_, ?_⟩
      · rw [scale100_getD _ b i (by rw [e1, macd_pair_length]; exact hb)
            (by rw [e1, (macd_pair_row prices T w (w / 2) (w / 6) b hrect hwT hw2
              hw2w hw6 hw6w hb).1]; exact hi),
          scale100_getD _ b i (by rw [e1P, macd_pair_length]; exact hbP)
            (by rw [e1P, (macd_pair_row (prices.map (List.take (w + i))) (w + i) w
              (w / 2) (w / 6) b hrectP hwTP hw2 hw2w hw6 hw6w hbP).1]; exact hiP),
          e1, e1P,
          (macd_pair_row prices T w (w / 2) (w / 6) b hrect hwT hw2 hw2w hw6 hw6w hb).2
            i hi,
          (macd_pair_row (prices.map (List.take (w + i))) (w + i) w (w / 2) (w / 6) b
            hrectP hwTP hw2 hw2w hw6 hw6w hbP).2 i hiP,
          hPb,
          winMean_take _ (w + i) (w - w / 6 + i) (w / 6) (by omega),
          winMean_take _ (w + i) (w - w / 2 + i) (w / 2) (by omega)]
      · rw [scale100_getD _ b i (by rw [e2, macd_pair_length]; exact hb)
            (by rw [e2, (macd_pair_row prices T w w (w / 3) b hrect hwT hw1
              hww hw3 hw3w hb).1]; exact hi),
          scale100_getD _ b i (by rw [e2P, macd_pair_length]; exact hbP)
            (by rw [e2P, (macd_pair_row (prices.map (List.take (w + i))) (w + i) w
              w (w / 3) b hrectP hwTP hw1 hww hw3 hw3w hbP).1]; exact hiP),
          e2, e2P,
          (macd_pair_row prices T w w (w / 3) b hrect hwT hw1 hww hw3 hw3w hb).2 i hi,
          (macd_pair_row (prices.map (List.take (w + i))) (w + i) w w (w / 3) b
            hrectP hwTP hw1 hww hw3 hw3w hbP).2 i hiP,
          hPb,
          winMean_take _ (w + i) (w - w / 3 + i) (w / 3) (by omega),
          winMean_take _ (w + i) (w - w + i) w (by omega)]
      · rw [scale100_getD _ b i (by rw [ep, pct_slice_length]; exact hb)
            (by rw [ep, (pct_slice_row prices T w b hrect hwpct hwT hb).1]; exact hi),
          scale100_getD _ b i (by rw [epP, pct_slice_length]; exact hbP)
            (by rw [epP, (pct_slice_row (prices.map (List.take (w + i))) (w + i) w b
              hrectP hwpct hwTP hbP).1]; exact hiP),
          ep, epP,
          (pct_slice_row prices T w b hrect hwpct hwT hb).2 i hi,
          (pct_slice_row (prices.map (List.take (w + i))) (w + i) w b
            hrectP hwpct hwTP hbP).2 i hiP,
          hPb,
          getD_take_lt _ (w + i) (w - 1 + i) (by omega) 0,
          getD_take_lt _ (w + i) (w - 2 + i) (by omega) 0]
      · rw [scale100_getD _ b i (by rw [ev, var_div_length]; exact hb)
            (by rw [ev, (var_div_row prices T w b hrect hw1 hwT hb).1]; exact hi),
          scale100_getD _ b i (by rw [evP, var_div_length]; exact hbP)
            (by rw [evP, (var_div_row (prices.map (List.take (w + i))) (w + i) w b
              hrectP hw1 hwTP hbP).1]; exact hiP),
          ev, evP,
          (var_div_row prices T w b hrect hw1 hwT hb).2 i hi,
          (var_div_row (prices.map (List.take (w + i))) (w + i) w b
            hrectP hw1 hwTP hbP).2 i hiP,
          hPb,
          take_window_eq (prices.getD b []) (w + i) i w (by omega),
          winMean_take _ (w + i) i w (by omega)]

/-- Witness for `create_indicators_series_aligned` at
`prices = [[1,…,7]]`, `T = 7`, `w = 6`. -/
theorem create_indicators_series_aligned_witness :
    ∃ m1 m2 mp mv,
      create_indicators [[1, 2, 3, 4, 5, 6, 7]] 6 true
        = some ⟨TOut.mat m1, TOut.mat m2, TOut.mat mp, TOut.mat mv⟩ ∧
      (m1.length = ([[1, 2, 3, 4, 5, 6, 7]] : List (List ℚ)).length ∧
        m2.length = ([[1, 2, 3, 4, 5, 6, 7]] : List (List ℚ)).length ∧
        mp.length = ([[1, 2, 3, 4, 5, 6, 7]] : List (List ℚ)).length ∧
        mv.length = ([[1, 2, 3, 4, 5, 6, 7]] : List (List ℚ)).length) ∧
      (∀ b, b < ([[1, 2, 3, 4, 5, 6, 7]] : List (List ℚ)).length →
        (m1.getD b []).length = 7 - 6 + 1 ∧ (m2.getD b []).length = 7 - 6 + 1 ∧
        (mp.getD b []).length = 7 - 6 + 1 ∧ (mv.getD b []).length = 7 - 6 + 1) ∧
      ∀ i, i < 7 - 6 + 1 →
        ∃ n1 n2 np nv,
          create_indicators (([[1, 2, 3, 4, 5, 6, 7]] : List (List ℚ)).map
              (List.take (6 + i))) 6 true
            = some ⟨TOut.mat n1, TOut.mat n2, TOut.mat np, TOut.mat nv⟩ ∧
          (∀ b, b < ([[1, 2, 3, 4, 5, 6, 7]] : List (List ℚ)).length →
            (n1.getD b []).length = i + 1 ∧ (n2.getD b []).length = i + 1 ∧
            (np.getD b []).length = i + 1 ∧ (nv.getD b []).length = i + 1) ∧
          ∀ b, b < ([[1, 2, 3, 4, 5, 6, 7]] : List (List ℚ)).length →
            (m1.getD b []).getD i 0 = (n1.getD b []).getD i 0 ∧
            (m2.getD b []).getD i 0 = (n2.getD b []).getD i 0 ∧
            (mp.getD b []).getD i 0 = (np.getD b []).getD i 0 ∧
            (mv.getD b []).getD i 0 = (nv.getD b []).getD i 0 :=
  create_indicators_series_aligned [[1, 2, 3, 4, 5, 6, 7]] 7 6
    (by simp) rfl (by decide) (by decide)

/-! ### Predictor network: softmax output rows (claim C8) -/

theorem blockApply_length (bk : Block) (x : List ℚ) (n : Nat)
    (hlin : bk.lin.length = n) (hbn : bk.bn.length = n) :
    (blockApply bk x).length = n := by
  cases hact : bk.act <;>
    simp [blockApply, hact, bnApply, linApply, List.length_zipWith, hlin, hbn]

theorem runNet_foutput_length (bs : List Block) (x : List ℚ)
    (hwf : wfNet bs foutput_layer_sizes = true) :
    (runNet bs x).length = 3 := by
  match bs with
  | [] => simp [wfNet, foutput_layer_sizes] at hwf
  | [b1] => simp [wfNet, foutput_layer_sizes] at hwf
  | [b1, b2] => simp [wfNet, foutput_layer_sizes] at hwf
  | b1 :: b2 :: b3 :: b4 :: rest => simp [wfNet, foutput_layer_sizes] at hwf
  | [b1, b2, b3] =>
    simp only [wfNet, foutput_layer_sizes, Bool.and_eq_true, beq_iff_eq] at hwf
    simp only [runNet, List.foldl]
    refine blockApply_length b3 _ 3 ?_ ?_ <;> tauto

theorem softmaxQ_length (e : ℚ → ℚ) (v : List ℚ) :
    (softmaxQ e v).length = v.length := by
  simp [softmaxQ]

theorem map_e_sum_pos (e : ℚ → ℚ) (v : List ℚ) (hpos : ∀ x, 0 < e x)
    (hne : v ≠ []) : 0 < (v.map e).sum := by
  apply List.sum_pos
  · intro x hx
    rcases List.mem_map.mp hx with ⟨a, _, rfl⟩
    exact hpos a
  · simpa using hne

theorem softmaxQ_sum (e : ℚ → ℚ) (v : List ℚ) (hpos : ∀ x, 0 < e x)
    (hne : v ≠ []) : (softmaxQ e v).sum = 1 := by
  have hs : 0 < (v.map e).sum := map_e_sum_pos e v hpos hne
  simp only [softmaxQ, div_eq_mul_inv]
  rw [List.sum_map_mul_right, ← div_eq_mul_inv, div_self (ne_of_gt hs)]

theorem softmaxQ_pos (e : ℚ → ℚ) (v : List ℚ) (hpos : ∀ x, 0 < e x)
    (hne : v ≠ []) : ∀ y ∈ softmaxQ e v, 0 < y := by
  intro y hy
  simp only [softmaxQ] at hy
  rcases List.mem_map.mp hy with ⟨a, _, rfl⟩
  exact div_pos (hpos a) (map_e_sum_pos e v hpos hne)

theorem softmax_decoder_props (e : ℚ → ℚ) (hpos : ∀ q, 0 < e q) (bs : List Block)
    (hwf : wfNet bs foutput_layer_sizes = true) (h : List ℚ) :
    (softmaxQ e (runNet bs h)).length = 3 ∧ (softmaxQ e (runNet bs h)).sum = 1 ∧
      ∀ y ∈ softmaxQ e (runNet bs h), 0 < y := by
  have hlen := runNet_foutput_length bs h hwf
  have hne : runNet bs h ≠ [] := by
    intro hnil
    rw [hnil] at hlen
    simp at hlen
  exact ⟨by rw [softmaxQ_length, hlen], softmaxQ_sum e _ hpos hne,
    softmaxQ_pos e _ hpos hne⟩

/-- Claim C8: for every valid input (rank 3 in recurrent mode, rank 2
otherwise — `forward` returns `some` exactly then) and every predictor
whose decoder is built by `create_net` with `foutput_layer_sizes`
(= [16,16,8,3]), every row of `MarketPredictor.forward` is a 3-element
probability vector: it has length 3, strictly positive entries, and its
entries sum to 1 — for any weights, any sigmoid/tanh, and any positive
exponential in the softmax. -/
theorem forward_prob_rows (sg th e : ℚ → ℚ) (p : MarketPredictor)
    (hpos : ∀ q, 0 < e q)
    (hwf : wfNet p.foutput foutput_layer_sizes = true)
    (inp : MPInput) (out : List (List ℚ))
    (hout : forward sg th e p inp = some out) :
    ∀ row ∈ out, row.length = 3 ∧ row.sum = 1 ∧ ∀ y ∈ row, 0 < y := by
  cases inp with
  | seq3 x =>
    by_cases hrec : p.recurrent = true
    · simp only [forward, hrec, if_true] at hout
      obtain rfl := Option.some.inj hout
      intro row hrow
      rcases List.mem_map.mp hrow with ⟨sample, _, rfl⟩
      exact softmax_decoder_props e hpos p.foutput hwf _
    · simp only [forward, hrec, if_false, reduceCtorEq] at hout
  | flat2 x =>
    by_cases hrec : p.recurrent = true
    · simp only [forward, hrec, if_true, reduceCtorEq] at hout
    · simp only [forward, hrec, if_false] at hout
      obtain rfl := Option.some.inj hout
      intro row hrow
      rcases List.mem_map.mp hrow with ⟨sample, _, rfl⟩
      exact softmax_decoder_props e hpos p.foutput hwf _

/-- Witness for `forward_prob_rows`: the zero-weight predictor on one
batch row emits the uniform distribution `[1/3, 1/3, 1/3]`. -/
theorem forward_prob_rows_witness :
    ([(1 : ℚ) / 3, 1 / 3, 1 / 3] : List ℚ).length = 3 ∧
    ([(1 : ℚ) / 3, 1 / 3, 1 / 3] : List ℚ).sum = 1 ∧
    ∀ y ∈ ([(1 : ℚ) / 3, 1 / 3, 1 / 3] : List ℚ), 0 < y :=
  forward_prob_rows (fun x => x) (fun x => x) (fun _ => 1) egPredictor
    (fun _ => one_pos) (by decide) (MPInput.flat2 [[0]]) [[1 / 3, 1 / 3, 1 / 3]]
    (by norm_num [forward, egPredictor, egFoutput, egLinRow, egBnPar, runNet,
      blockApply, linApply, bnApply, reluQ, softmaxQ])
    [(1 : ℚ) / 3, 1 / 3, 1 / 3] (by simp)

end Model
